import Mathlib

/-!
Verification development for the StudyBuddy study platform
(Study Intelligence Core and its frontend callers).

The repository under inspection ships the React frontend together with
architecture documents; the Python backend that implements the Study
Intelligence Core (chunker, mastery tracker, cram planner, confusion
detector, retriever, embedding index) is not part of the inspected
sources, so those components are modelled from the specification text,
as flagged in each doc comment.  Frontend logic (the shared axios client
configuration, the quiz scoring page, the cram mode page) is embedded
from the JavaScript sources directly.

All machine arithmetic is embedded over exact rationals; JavaScript
Math.round is modelled as floor (x + 1/2).
-/

namespace StudyBuddy

/-! ### Mastery Tracker (section 4.5 of the specification) -/

/-- Clamp a rational to the interval from lo to hi. -/
def clamp (lo hi x : ℚ) : ℚ := max lo (min x hi)

/-- Modelled from the spec: the Mastery Tracker backend is not among the
inspected sources.  Section 4.5 gives the update rule
new = clamp(old + alpha * (outcome*100 - old), 0, 100) with alpha = 0.3,
outcome 1 for a correct answer and 0 for an incorrect one. -/
def masteryUpdate (old : ℚ) (outcome : Bool) : ℚ :=
  clamp 0 100 (old + (3 / 10) * ((if outcome then (100 : ℚ) else 0) - old))

/-- Fold a finite sequence of graded outcomes through the mastery update. -/
def applyOutcomes (m0 : ℚ) (outs : List Bool) : ℚ :=
  outs.foldl masteryUpdate m0

theorem clamp_le (lo hi x : ℚ) (h : lo ≤ hi) :
    lo ≤ clamp lo hi x ∧ clamp lo hi x ≤ hi := by
  constructor
  · exact le_max_left _ _
  · exact max_le h (min_le_right _ _)

theorem masteryUpdate_bounds (old : ℚ) (b : Bool) :
    0 ≤ masteryUpdate old b ∧ masteryUpdate old b ≤ 100 := by
  unfold masteryUpdate
  exact clamp_le 0 100 _ (by norm_num)

theorem applyOutcomes_bounds (outs : List Bool) :
    ∀ m0 : ℚ, 0 ≤ m0 → m0 ≤ 100 →
      0 ≤ applyOutcomes m0 outs ∧ applyOutcomes m0 outs ≤ 100 := by
  induction outs with
  | nil => intro m0 h0 h1; exact ⟨h0, h1⟩
  | cons b rest ih =>
      intro m0 _ _
      have hb := masteryUpdate_bounds m0 b
      exact ih (masteryUpdate m0 b) hb.1 hb.2

theorem masteryUpdate_true_eq (old : ℚ) (h0 : 0 ≤ old) (h1 : old ≤ 100) :
    masteryUpdate old true = 7 / 10 * old + 30 := by
  unfold masteryUpdate clamp
  have e : old + 3 / 10 * ((if (true : Bool) then (100 : ℚ) else 0) - old)
      = 7 / 10 * old + 30 := by
    simp only [if_pos]
    ring
  rw [e, min_eq_left (by linarith), max_eq_right (by linarith)]

theorem masteryUpdate_false_eq (old : ℚ) (h0 : 0 ≤ old) (h1 : old ≤ 100) :
    masteryUpdate old false = 7 / 10 * old := by
  unfold masteryUpdate clamp
  have e : old + 3 / 10 * ((if (false : Bool) then (100 : ℚ) else 0) - old)
      = 7 / 10 * old := by
    rw [if_neg Bool.false_ne_true]
    ring
  rw [e, min_eq_left (by linarith), max_eq_right (by linarith)]

theorem applyOutcomes_replicate_true (n : ℕ) :
    ∀ m0 : ℚ, 0 ≤ m0 → m0 ≤ 100 →
      100 - applyOutcomes m0 (List.replicate n true)
        = (7 / 10) ^ n * (100 - m0) := by
  induction n with
  | zero => intro m0 _ _; simp [applyOutcomes]
  | succ k ih =>
      intro m0 h0 h1
      have step : applyOutcomes m0 (List.replicate (k + 1) true)
          = applyOutcomes (masteryUpdate m0 true) (List.replicate k true) := by
        simp [applyOutcomes, List.replicate_succ]
      have hb := masteryUpdate_bounds m0 true
      have := ih (masteryUpdate m0 true) hb.1 hb.2
      rw [step, this, masteryUpdate_true_eq m0 h0 h1]
      ring

theorem applyOutcomes_replicate_false (n : ℕ) :
    ∀ m0 : ℚ, 0 ≤ m0 → m0 ≤ 100 →
      applyOutcomes m0 (List.replicate n false) = (7 / 10) ^ n * m0 := by
  induction n with
  | zero => intro m0 _ _; simp [applyOutcomes]
  | succ k ih =>
      intro m0 h0 h1
      have step : applyOutcomes m0 (List.replicate (k + 1) false)
          = applyOutcomes (masteryUpdate m0 false) (List.replicate k false) := by
        simp [applyOutcomes, List.replicate_succ]
      have hb := masteryUpdate_bounds m0 false
      have := ih (masteryUpdate m0 false) hb.1 hb.2
      rw [step, this, masteryUpdate_false_eq m0 h0 h1]
      ring

theorem pow_seven_tenths_small (eps : ℚ) (heps : 0 < eps) :
    ∃ N : ℕ, ∀ n : ℕ, N ≤ n → ((7 : ℚ) / 10) ^ n * 100 < eps := by
  obtain ⟨N, hN⟩ :=
    exists_pow_lt_of_lt_one (x := eps / 100) (y := (7 : ℚ) / 10)
      (by positivity) (by norm_num)
  refine ⟨N, fun n hn => ?_⟩
  have hmono : ((7 : ℚ) / 10) ^ n ≤ ((7 : ℚ) / 10) ^ N :=
    pow_le_pow_of_le_one (by norm_num) (by norm_num) hn
  have : ((7 : ℚ) / 10) ^ n < eps / 100 := lt_of_le_of_lt hmono hN
  linarith

/-- C1: starting from any mastery state inside the unit-scaled interval
from 0 to 100, the exponential-moving-average update with alpha = 0.3
keeps mastery inside the interval after every graded outcome, an
unbounded run of correct answers drives mastery toward 100, and an
unbounded run of incorrect answers drives it toward 0. -/
theorem mastery_bounded_and_convergent (m0 : ℚ) (h0 : 0 ≤ m0) (h1 : m0 ≤ 100) :
    (∀ outs : List Bool,
        0 ≤ applyOutcomes m0 outs ∧ applyOutcomes m0 outs ≤ 100) ∧
    (∀ eps : ℚ, 0 < eps → ∃ N : ℕ, ∀ n : ℕ, N ≤ n →
        100 - applyOutcomes m0 (List.replicate n true) < eps) ∧
    (∀ eps : ℚ, 0 < eps → ∃ N : ℕ, ∀ n : ℕ, N ≤ n →
        applyOutcomes m0 (List.replicate n false) < eps) := by
  refine ⟨fun outs => applyOutcomes_bounds outs m0 h0 h1, ?_, ?_⟩
  · intro eps heps
    obtain ⟨N, hN⟩ := pow_seven_tenths_small eps heps
    refine ⟨N, fun n hn => ?_⟩
    have hpow : (0 : ℚ) ≤ ((7 : ℚ) / 10) ^ n := by positivity
    have hgap : 100 - m0 ≤ 100 := by linarith
    have hle : ((7 : ℚ) / 10) ^ n * (100 - m0) ≤ ((7 : ℚ) / 10) ^ n * 100 :=
      mul_le_mul_of_nonneg_left hgap hpow
    have := applyOutcomes_replicate_true n m0 h0 h1
    have := hN n hn
    linarith
  · intro eps heps
    obtain ⟨N, hN⟩ := pow_seven_tenths_small eps heps
    refine ⟨N, fun n hn => ?_⟩
    have hpow : (0 : ℚ) ≤ ((7 : ℚ) / 10) ^ n := by positivity
    have hle : ((7 : ℚ) / 10) ^ n * m0 ≤ ((7 : ℚ) / 10) ^ n * 100 :=
      mul_le_mul_of_nonneg_left h1 hpow
    have := applyOutcomes_replicate_false n m0 h0 h1
    have := hN n hn
    linarith

/-- Witness for C1 at the concrete initial mastery 50. -/
theorem mastery_bounded_and_convergent_witness :
    ((0 : ℚ) ≤ 50 ∧ (50 : ℚ) ≤ 100) ∧
    ((∀ outs : List Bool,
        0 ≤ applyOutcomes 50 outs ∧ applyOutcomes 50 outs ≤ 100) ∧
     (∀ eps : ℚ, 0 < eps → ∃ N : ℕ, ∀ n : ℕ, N ≤ n →
        100 - applyOutcomes 50 (List.replicate n true) < eps) ∧
     (∀ eps : ℚ, 0 < eps → ∃ N : ℕ, ∀ n : ℕ, N ≤ n →
        applyOutcomes 50 (List.replicate n false) < eps)) :=
  ⟨⟨by norm_num, by norm_num⟩,
   mastery_bounded_and_convergent 50 (by norm_num) (by norm_num)⟩

/-! ### Cram Planner priority score (section 4.8, step 2) -/

/-- Modelled from the spec: the Cram Planner backend is not among the
inspected sources.  A concept carries an importance score from 1 to 10,
an exam probability from 0 to 100 and a mastery level from 0 to 100. -/
structure ConceptInfo where
  importance : ℚ
  examProb : ℚ
  mastery : ℚ
deriving DecidableEq

/-- Modelled from the spec: priority = importance * (exam_probability / 100)
* (1 - mastery / 100). -/
def priorityScore (i p m : ℚ) : ℚ := i * (p / 100) * (1 - m / 100)

/-- Priority of a concept record. -/
def cramPriority (c : ConceptInfo) : ℚ :=
  priorityScore c.importance c.examProb c.mastery

/-- C2: the priority of a concept is computed by the multiplicative
formula, and a fully mastered concept has priority exactly 0 regardless
of importance and exam probability. -/
theorem priority_formula_and_mastered_zero (i p m : ℚ)
    (hi0 : 1 ≤ i) (hi1 : i ≤ 10) (hp0 : 0 ≤ p) (hp1 : p ≤ 100)
    (hm0 : 0 ≤ m) (hm1 : m ≤ 100) :
    priorityScore i p m = i * (p / 100) * (1 - m / 100) ∧
    (m = 100 → priorityScore i p m = 0) := by
  refine ⟨rfl, fun hm => ?_⟩
  subst hm
  unfold priorityScore
  norm_num

/-- Witness for C2 at importance 7, exam probability 80, mastery 100. -/
theorem priority_formula_and_mastered_zero_witness :
    ((1 : ℚ) ≤ 7 ∧ (7 : ℚ) ≤ 10 ∧ (0 : ℚ) ≤ 80 ∧ (80 : ℚ) ≤ 100 ∧
      (0 : ℚ) ≤ 100 ∧ (100 : ℚ) ≤ 100) ∧
    (priorityScore 7 80 100 = 7 * (80 / 100) * (1 - 100 / 100) ∧
      ((100 : ℚ) = 100 → priorityScore 7 80 100 = 0)) :=
  ⟨⟨by norm_num, by norm_num, by norm_num, by norm_num, by norm_num, by norm_num⟩,
   priority_formula_and_mastered_zero 7 80 100 (by norm_num) (by norm_num)
     (by norm_num) (by norm_num) (by norm_num) (by norm_num)⟩

/-! ### Chunker (section 4.1) -/

/-- Modelled from the spec: the Chunker backend is not among the inspected
sources.  Section 4.1 describes a window of width C advanced by C - O per
step, where the final chunk may be shorter than C and a text of length at
most C yields exactly one chunk.  The recursion is fuel-structural so the
definition evaluates by kernel reduction; fuel L is always sufficient when
the step is positive. -/
def chunkGo (C step L : ℕ) : ℕ → ℕ → List ℕ
  | 0, s => [s]
  | Nat.succ fuel, s => if s + C < L then s :: chunkGo C step L fuel (s + step) else [s]

/-- Start offsets of the chunks of a text of length L with chunk size C
and overlap O. -/
def chunkStarts (C O L : ℕ) : List ℕ := chunkGo C (C - O) L L 0

/-- Number of chunks produced for a text of length L. -/
def numChunks (C O L : ℕ) : ℕ := (chunkStarts C O L).length

theorem chunkGo_length (C step L : ℕ) (hstep : 0 < step) :
    ∀ fuel s : ℕ, L ≤ s + C + fuel * step →
      (chunkGo C step L fuel s).length = (L - (s + C) + step - 1) / step + 1 := by
  intro fuel
  induction fuel with
  | zero =>
      intro s hfuel
      simp only [Nat.zero_mul, Nat.add_zero] at hfuel
      have hz : L - (s + C) = 0 := Nat.sub_eq_zero_of_le hfuel
      rw [chunkGo, hz]
      simp [Nat.div_eq_of_lt (by omega : step - 1 < step)]
  | succ k ih =>
      intro s hfuel
      rw [chunkGo]
      by_cases h : s + C < L
      · rw [if_pos h, List.length_cons,
          ih (s + step) (by rw [Nat.succ_mul] at hfuel; omega)]
        have ha : 0 < L - (s + C) := by omega
        rcases le_or_lt step (L - (s + C)) with hcase | hcase
        · have e1 : L - (s + step + C) = L - (s + C) - step := by omega
          have e2 : L - (s + C) + step - 1 = (L - (s + C) - step + step - 1) + step := by
            omega
          rw [e1, e2, Nat.add_div_right _ hstep]
        · have e1 : L - (s + step + C) = 0 := by omega
          have e2 : L - (s + C) + step - 1 = (L - (s + C) - 1) + step := by omega
          rw [e1, e2, Nat.add_div_right _ hstep,
            Nat.div_eq_of_lt (by omega : 0 + step - 1 < step),
            Nat.div_eq_of_lt (by omega : L - (s + C) - 1 < step)]
      · rw [if_neg h]
        have hz : L - (s + C) = 0 := by omega
        rw [hz]
        simp [Nat.div_eq_of_lt (by omega : step - 1 < step)]

theorem numChunks_eq (C O L : ℕ) (hO : 0 < O) (hOC : O < C) :
    numChunks C O L = (L - C + (C - O) - 1) / (C - O) + 1 := by
  have hstep : 0 < C - O := by omega
  have hfuel : L ≤ 0 + C + L * (C - O) := by
    have : L ≤ L * (C - O) := Nat.le_mul_of_pos_right L hstep
    omega
  have := chunkGo_length C (C - O) L hstep L 0 hfuel
  simpa [numChunks, chunkStarts] using this

/-- C3 (amended): for 0 < O < C the chunker emits exactly one chunk
whenever the text length is at most C, and for text length L > O it
emits exactly ceil((L - O) / (C - O)) chunks, written here with the
natural-number ceiling (L - O + (C - O) - 1) / (C - O). -/
theorem numChunks_formula (C O L : ℕ) (hO : 0 < O) (hOC : O < C) :
    (L ≤ C → numChunks C O L = 1) ∧
    (O < L → numChunks C O L = (L - O + (C - O) - 1) / (C - O)) := by
  have hstep : 0 < C - O := by omega
  constructor
  · intro hLC
    rw [numChunks_eq C O L hO hOC]
    have hz : L - C = 0 := Nat.sub_eq_zero_of_le hLC
    rw [hz, Nat.div_eq_of_lt (by omega : 0 + (C - O) - 1 < C - O)]
  · intro hOL
    rw [numChunks_eq C O L hO hOC]
    rcases le_or_lt L C with hLC | hLC
    · have hz : L - C = 0 := Nat.sub_eq_zero_of_le hLC
      rw [hz]
      have hlo : 1 * (C - O) ≤ L - O + (C - O) - 1 := by omega
      have hhi : L - O + (C - O) - 1 < (1 + 1) * (C - O) := by omega
      rw [Nat.div_eq_of_lt_le hlo hhi,
        Nat.div_eq_of_lt (by omega : 0 + (C - O) - 1 < C - O)]
    · have e : L - O + (C - O) - 1 = (L - C + (C - O) - 1) + (C - O) := by omega
      rw [e, Nat.add_div_right _ hstep]

/-- Witness for C3 (amended) at C = 500, O = 50, L = 1200: the loop emits
ceil(1150 / 450) = 3 chunks, and a short text of length 300 gives one. -/
theorem numChunks_formula_witness :
    ((0 < 50 ∧ 50 < 500) ∧
      ((1200 ≤ 500 → numChunks 500 50 1200 = 1) ∧
        (50 < 1200 → numChunks 500 50 1200 = (1200 - 50 + (500 - 50) - 1) / (500 - 50)))) ∧
    numChunks 500 50 300 = 1 :=
  ⟨⟨⟨by norm_num, by norm_num⟩, numChunks_formula 500 50 1200 (by norm_num) (by norm_num)⟩,
    ((numChunks_formula 500 50 300 (by norm_num) (by norm_num)).1 (by norm_num))⟩

/-- C3 counterexample: at C = 2, O = 1, L = 1 the chunker emits one chunk
(the text is shorter than the chunk size, as the spec requires), but the
claimed count ceil((L - O) / (C - O)) evaluates to 0, so the claimed
formula does not hold for every length. -/
theorem numChunks_claim_counterexample :
    numChunks 2 1 1 = 1 ∧ (1 - 1 + (2 - 1) - 1) / (2 - 1) = 0 ∧
    ¬ numChunks 2 1 1 = (1 - 1 + (2 - 1) - 1) / (2 - 1) := by
  refine ⟨?_, by norm_num, ?_⟩ <;> decide

/-! ### Cram Planner allocation (section 4.8, steps 3 to 5) -/

/-- Modelled from the spec: ranking is descending by priority, ties broken
by higher importance, then by higher exam probability. -/
def rankBefore (a b : ConceptInfo) : Prop :=
  cramPriority b < cramPriority a ∨
    (cramPriority b = cramPriority a ∧
      (b.importance < a.importance ∨
        (b.importance = a.importance ∧ b.examProb ≤ a.examProb)))

instance : DecidableRel rankBefore := fun a b => by
  unfold rankBefore
  infer_instance

/-- Concepts ranked descending by priority. -/
def rankConcepts (cs : List ConceptInfo) : List ConceptInfo :=
  cs.insertionSort rankBefore

/-- Modelled from the spec: allocation is restricted to the top ten
concepts by priority to keep sessions focused. -/
def topConcepts (cs : List ConceptInfo) : List ConceptInfo :=
  (rankConcepts cs).take 10

/-- Modelled from the spec: minimum floor of five minutes per included
concept. -/
def minuteFloor : ℕ := 5

/-- Sum of the priorities of the top concepts, the normalization base. -/
def planTotalPriority (cs : List ConceptInfo) : ℚ :=
  ((topConcepts cs).map cramPriority).sum

/-- Modelled from the spec: minutes allocated proportionally to
normalized priority, rounded down to whole minutes. -/
def allocFor (minutes : ℕ) (total p : ℚ) : ℕ :=
  ⌊(minutes : ℚ) * p / total⌋₊

/-- Each top concept paired with its proportional allocation. -/
def allocPairs (minutes : ℕ) (cs : List ConceptInfo) : List (ConceptInfo × ℕ) :=
  (topConcepts cs).map
    (fun c => (c, allocFor minutes (planTotalPriority cs) (cramPriority c)))

/-- Concepts whose allocation reaches the floor stay in the schedule. -/
def cramTopics (minutes : ℕ) (cs : List ConceptInfo) : List (ConceptInfo × ℕ) :=
  (allocPairs minutes cs).filter (fun x => decide (minuteFloor ≤ x.2))

/-- Concepts falling below the floor are moved to the skip list. -/
def cramSkips (minutes : ℕ) (cs : List ConceptInfo) : List ConceptInfo :=
  ((allocPairs minutes cs).filter (fun x => decide (x.2 < minuteFloor))).map Prod.fst

/-- Result of one cram planning request. -/
structure CramPlan where
  topics : List (ConceptInfo × ℕ)
  skipTopics : List ConceptInfo
  totalMinutes : ℕ
deriving DecidableEq

/-- Error state of the Cram Planner. -/
inductive CramError where
  | InsufficientData
deriving DecidableEq

/-- Modelled from the spec: a request over a course with zero concepts
fails with InsufficientData instead of returning a degenerate plan. -/
def generateCramPlan (minutes : ℕ) (cs : List ConceptInfo) :
    Except CramError CramPlan :=
  if cs.isEmpty then Except.error CramError.InsufficientData
  else Except.ok
    { topics := cramTopics minutes cs
      skipTopics := cramSkips minutes cs
      totalMinutes := ((cramTopics minutes cs).map Prod.snd).sum }

theorem mem_topConcepts {cs : List ConceptInfo} {c : ConceptInfo}
    (h : c ∈ topConcepts cs) : c ∈ cs := by
  unfold topConcepts rankConcepts at h
  exact (List.mem_insertionSort rankBefore).1 (List.mem_of_mem_take h)

theorem allocFor_mono (minutes : ℕ) (total p q : ℚ)
    (ht : 0 ≤ total) (hpq : p ≤ q) :
    allocFor minutes total p ≤ allocFor minutes total q := by
  rcases eq_or_lt_of_le ht with h0 | h0
  · unfold allocFor
    rw [← h0, div_zero, div_zero]
  · apply Nat.floor_mono
    exact (div_le_div_iff_of_pos_right h0).mpr
      (mul_le_mul_of_nonneg_left hpq (Nat.cast_nonneg minutes))

theorem sum_allocFor_le (minutes : ℕ) (total : ℚ) (l : List ℚ)
    (hnn : ∀ p ∈ l, 0 ≤ p) (ht : 0 ≤ total) :
    (((l.map (fun p => allocFor minutes total p)).sum : ℕ) : ℚ)
      ≤ (minutes : ℚ) * l.sum / total := by
  induction l with
  | nil => simp
  | cons p rest ih =>
      have hp : 0 ≤ p := hnn p (List.mem_cons_self p rest)
      have hrest : ∀ q ∈ rest, 0 ≤ q := fun q hq => hnn q (List.mem_cons_of_mem p hq)
      have h1 : ((allocFor minutes total p : ℕ) : ℚ) ≤ (minutes : ℚ) * p / total := by
        unfold allocFor
        exact Nat.floor_le (div_nonneg (mul_nonneg (Nat.cast_nonneg minutes) hp) ht)
      have h2 := ih hrest
      simp only [List.map_cons, List.sum_cons, Nat.cast_add]
      rw [mul_add, add_div]
      exact add_le_add h1 h2

theorem natSum_filter_le {α : Type} (q : α → Bool) (f : α → ℕ) (l : List α) :
    ((l.filter q).map f).sum ≤ (l.map f).sum := by
  induction l with
  | nil => simp
  | cons a t ih =>
      by_cases h : q a
      · simp only [List.filter_cons, h, if_pos, List.map_cons, List.sum_cons]
        omega
      · simp only [List.filter_cons, h, Bool.false_eq_true, if_neg,
          not_false_eq_true, List.map_cons, List.sum_cons]
        omega

theorem mem_allocPairs {minutes : ℕ} {cs : List ConceptInfo}
    {x : ConceptInfo × ℕ} (h : x ∈ allocPairs minutes cs) :
    x.1 ∈ topConcepts cs ∧
      x.2 = allocFor minutes (planTotalPriority cs) (cramPriority x.1) := by
  unfold allocPairs at h
  obtain ⟨c, hc, rfl⟩ := List.mem_map.1 h
  exact ⟨hc, rfl⟩

theorem planTotalPriority_nonneg (cs : List ConceptInfo)
    (hnn : ∀ c ∈ cs, 0 ≤ cramPriority c) : 0 ≤ planTotalPriority cs := by
  apply List.sum_nonneg
  intro p hp
  obtain ⟨c, hc, rfl⟩ := List.mem_map.1 hp
  exact hnn c (mem_topConcepts hc)

theorem allocPairs_sum_le (minutes : ℕ) (cs : List ConceptInfo)
    (hnn : ∀ c ∈ cs, 0 ≤ cramPriority c) :
    ((allocPairs minutes cs).map Prod.snd).sum ≤ minutes := by
  have hnn2 : ∀ p ∈ (topConcepts cs).map cramPriority, 0 ≤ p := by
    intro p hp
    obtain ⟨c, hc, rfl⟩ := List.mem_map.1 hp
    exact hnn c (mem_topConcepts hc)
  have ht : 0 ≤ planTotalPriority cs := planTotalPriority_nonneg cs hnn
  have key := sum_allocFor_le minutes (planTotalPriority cs)
    ((topConcepts cs).map cramPriority) hnn2 ht
  have e : (allocPairs minutes cs).map Prod.snd
      = ((topConcepts cs).map cramPriority).map
          (fun p => allocFor minutes (planTotalPriority cs) p) := by
    simp only [allocPairs, List.map_map]
    rfl
  rw [e]
  have hsum : ((topConcepts cs).map cramPriority).sum = planTotalPriority cs := rfl
  rw [hsum] at key
  rcases eq_or_lt_of_le ht with h0 | h0
  · rw [← h0, div_zero] at key
    rw [← h0]
    have hz : (0 : ℚ) ≤ (minutes : ℚ) := Nat.cast_nonneg minutes
    have key2 : ((((topConcepts cs).map cramPriority).map
        (fun p => allocFor minutes 0 p)).sum : ℚ) ≤ (minutes : ℚ) := by
      calc ((((topConcepts cs).map cramPriority).map
            (fun p => allocFor minutes 0 p)).sum : ℚ) ≤ 0 := by simpa using key
        _ ≤ (minutes : ℚ) := hz
    exact_mod_cast key2
  · rw [mul_div_assoc, div_self (ne_of_gt h0), mul_one] at key
    exact_mod_cast key

/-- C4: in every successfully generated cram plan, allocated minutes are
monotone in priority among scheduled concepts, every scheduled concept
receives at least the five minute floor (below-floor concepts go to the
skip list instead), and the total allocated minutes never exceed the
requested budget. -/
theorem cram_plan_allocation (minutes : ℕ) (cs : List ConceptInfo)
    (plan : CramPlan) (hm : 0 < minutes) (hne : cs ≠ [])
    (hnn : ∀ c ∈ cs, 0 ≤ cramPriority c)
    (hplan : generateCramPlan minutes cs = Except.ok plan) :
    (∀ x ∈ plan.topics, ∀ y ∈ plan.topics,
        cramPriority y.1 ≤ cramPriority x.1 → y.2 ≤ x.2) ∧
    (∀ x ∈ plan.topics, minuteFloor ≤ x.2) ∧
    (∀ c ∈ plan.skipTopics,
        allocFor minutes (planTotalPriority cs) (cramPriority c) < minuteFloor) ∧
    plan.totalMinutes = (plan.topics.map Prod.snd).sum ∧
    plan.totalMinutes ≤ minutes := by
  unfold generateCramPlan at hplan
  rw [if_neg (by simpa using hne)] at hplan
  have hp : plan = { topics := cramTopics minutes cs
                     skipTopics := cramSkips minutes cs
                     totalMinutes := ((cramTopics minutes cs).map Prod.snd).sum } := by
    cases hplan
    rfl
  subst hp
  have ht : 0 ≤ planTotalPriority cs := planTotalPriority_nonneg cs hnn
  refine ⟨?_, ?_, ?_, rfl, ?_⟩
  · intro x hx y hy hxy
    have hx2 := (mem_allocPairs (List.mem_of_mem_filter hx)).2
    have hy2 := (mem_allocPairs (List.mem_of_mem_filter hy)).2
    rw [hx2, hy2]
    exact allocFor_mono minutes (planTotalPriority cs) _ _ ht hxy
  · intro x hx
    exact of_decide_eq_true (List.mem_filter.1 hx).2
  · intro c hc
    obtain ⟨x, hx, rfl⟩ := List.mem_map.1 hc
    have hlt : x.2 < minuteFloor := of_decide_eq_true (List.mem_filter.1 hx).2
    have hx2 := (mem_allocPairs (List.mem_of_mem_filter hx)).2
    rw [← hx2]
    exact hlt
  · calc ((cramTopics minutes cs).map Prod.snd).sum
        ≤ ((allocPairs minutes cs).map Prod.snd).sum :=
          natSum_filter_le _ Prod.snd (allocPairs minutes cs)
      _ ≤ minutes := allocPairs_sum_le minutes cs hnn

/-- Demo course for the cram planner witnesses: three concepts with
priorities 9, 3 and 1 as in the testable property of section 8. -/
def demoConcepts : List ConceptInfo :=
  [⟨9, 100, 0⟩, ⟨3, 100, 0⟩, ⟨1, 100, 0⟩]

/-- The plan the planner returns on the demo course with a 120 minute
budget. -/
def demoPlan : CramPlan :=
  match generateCramPlan 120 demoConcepts with
  | Except.ok p => p
  | Except.error _ => ⟨[], [], 0⟩

/-- Witness for C4 on the demo course with a 120 minute budget. -/
theorem cram_plan_allocation_witness :
    (0 < 120 ∧ demoConcepts ≠ [] ∧ (∀ c ∈ demoConcepts, 0 ≤ cramPriority c) ∧
      generateCramPlan 120 demoConcepts = Except.ok demoPlan) ∧
    ((∀ x ∈ demoPlan.topics, ∀ y ∈ demoPlan.topics,
        cramPriority y.1 ≤ cramPriority x.1 → y.2 ≤ x.2) ∧
     (∀ x ∈ demoPlan.topics, minuteFloor ≤ x.2) ∧
     (∀ c ∈ demoPlan.skipTopics,
        allocFor 120 (planTotalPriority demoConcepts) (cramPriority c) < minuteFloor) ∧
     demoPlan.totalMinutes = (demoPlan.topics.map Prod.snd).sum ∧
     demoPlan.totalMinutes ≤ 120) :=
  ⟨⟨by norm_num, by simp [demoConcepts],
    by
      intro c hc
      simp only [demoConcepts, List.mem_cons, List.not_mem_nil, or_false] at hc
      rcases hc with rfl | rfl | rfl <;> norm_num [cramPriority, priorityScore],
    rfl⟩,
   cram_plan_allocation 120 demoConcepts demoPlan (by norm_num)
     (by simp [demoConcepts])
     (by
       intro c hc
       simp only [demoConcepts, List.mem_cons, List.not_mem_nil, or_false] at hc
       rcases hc with rfl | rfl | rfl <;> norm_num [cramPriority, priorityScore])
     rfl⟩

/-- C5: a cram request over a course with no concepts fails with
InsufficientData and never yields a successful plan, while a course with
at least one concept never raises that error. -/
theorem cram_plan_insufficient_data (minutes : ℕ) (cs : List ConceptInfo) :
    (cs = [] → generateCramPlan minutes cs = Except.error CramError.InsufficientData ∧
      ∀ plan : CramPlan, generateCramPlan minutes cs ≠ Except.ok plan) ∧
    (cs ≠ [] → ∃ plan : CramPlan, generateCramPlan minutes cs = Except.ok plan) := by
  constructor
  · intro he
    subst he
    refine ⟨rfl, fun plan h => ?_⟩
    simp [generateCramPlan] at h
  · intro hne
    refine ⟨{ topics := cramTopics minutes cs
              skipTopics := cramSkips minutes cs
              totalMinutes := ((cramTopics minutes cs).map Prod.snd).sum }, ?_⟩
    unfold generateCramPlan
    rw [if_neg (by simpa using hne)]

/-- Witness for C5 on the empty course and on the demo course. -/
theorem cram_plan_insufficient_data_witness :
    (([] : List ConceptInfo) = [] →
      generateCramPlan 60 [] = Except.error CramError.InsufficientData ∧
      ∀ plan : CramPlan, generateCramPlan 60 [] ≠ Except.ok plan) ∧
    (demoConcepts ≠ [] →
      ∃ plan : CramPlan, generateCramPlan 60 demoConcepts = Except.ok plan) :=
  ⟨(cram_plan_insufficient_data 60 []).1,
   (cram_plan_insufficient_data 60 demoConcepts).2⟩

/-! ### Retriever and Answer Composer (sections 4.2, 4.3) -/

/-- Modelled from the spec: the Retriever backend is not among the
inspected sources.  A stored chunk carries its material reference and its
sequence index inside the material. -/
structure ChunkRec where
  matId : ℕ
  seqIdx : ℕ
deriving DecidableEq

/-- Modelled from the spec: results are ordered descending by similarity
score, ties broken by lower chunk sequence index. -/
def simBefore (a b : ChunkRec × ℚ) : Prop :=
  b.2 < a.2 ∨ (b.2 = a.2 ∧ a.1.seqIdx ≤ b.1.seqIdx)

instance : DecidableRel simBefore := fun a b => by
  unfold simBefore
  infer_instance

/-- Modelled from the spec: retrieval filters the index to the requested
scope, scores each chunk against the query, sorts descending by score and
returns at most k results.  The query-dependent scoring function stands
for the cosine similarity against the embedded query. -/
def retrieve (score : ChunkRec → ℚ) (chunks : List ChunkRec)
    (scope : ChunkRec → Bool) (k : ℕ) : List (ChunkRec × ℚ) :=
  (((chunks.filter scope).map (fun c => (c, score c))).insertionSort simBefore).take k

/-- Composed answer: generated text, grounding flag and source citations. -/
structure Answer where
  text : ℕ
  grounded : Bool
  sources : List ℕ
deriving DecidableEq

/-- Modelled from the spec: the Answer Composer treats empty retrieval as
no grounded context and still produces an answer, labeled ungrounded,
with an empty source list. -/
def composeAnswer (generated : ℕ) (retrieved : List (ChunkRec × ℚ)) : Answer :=
  { text := generated
    grounded := !retrieved.isEmpty
    sources := retrieved.map (fun r => r.1.matId) }

/-- From Chat.jsx: the sources block of a message is rendered only when
the source list is non-empty; the answer body renders either way. -/
def showSourcesSection (sources : List ℕ) : Bool :=
  decide (0 < sources.length)

/-- C6: retrieval over an empty scope, with k = 0, or over an empty index
returns an empty sequence rather than an error, and the Answer Composer
still produces an answer whose source list is empty and which is labeled
ungrounded; the chat page then simply omits the sources block. -/
theorem retrieval_empty_graceful (score : ChunkRec → ℚ)
    (chunks : List ChunkRec) (scope : ChunkRec → Bool) (k generated : ℕ) :
    (chunks.filter scope = [] → retrieve score chunks scope k = []) ∧
    retrieve score chunks scope 0 = [] ∧
    retrieve score [] scope k = [] ∧
    (composeAnswer generated []).sources = [] ∧
    (composeAnswer generated []).grounded = false ∧
    showSourcesSection (composeAnswer generated []).sources = false := by
  refine ⟨?_, ?_, ?_, rfl, rfl, rfl⟩
  · intro h
    simp [retrieve, h]
  · simp [retrieve]
  · simp [retrieve]

/-- Witness for C6 on an index whose scope filter removes everything. -/
theorem retrieval_empty_graceful_witness :
    (([⟨1, 1⟩] : List ChunkRec).filter (fun _ => false) = [] →
      retrieve (fun _ => 0) [⟨1, 1⟩] (fun _ => false) 5 = []) ∧
    retrieve (fun _ => 0) [⟨1, 1⟩] (fun _ => false) 0 = [] ∧
    retrieve (fun _ => 0) [] (fun _ => false) 5 = [] ∧
    (composeAnswer 7 []).sources = [] ∧
    (composeAnswer 7 []).grounded = false ∧
    showSourcesSection (composeAnswer 7 []).sources = false :=
  retrieval_empty_graceful (fun _ => 0) [⟨1, 1⟩] (fun _ => false) 5 7

/-! ### Embedding Index (section 4.2) -/

/-- Modelled from the spec: the embedding model is an external service;
section 4.2 requires a deterministic pure mapping of text to a vector of
fixed dimension 384.  The model maps token lists positionally. -/
def embed (text : List ℕ) : List ℚ :=
  (List.range 384).map
    (fun i => ((text.sum + (i + 1) * (text.length + 1) : ℕ) : ℚ))

/-- C7: embed is a pure deterministic function; two calls on identical
input yield identical vectors, always of dimension 384. -/
theorem embed_deterministic (t1 t2 : List ℕ) (h : t1 = t2) :
    embed t1 = embed t2 ∧ (embed t1).length = 384 := by
  subst h
  exact ⟨rfl, by simp [embed]⟩

/-- Witness for C7 on a concrete token list. -/
theorem embed_deterministic_witness :
    ([1, 2, 3] : List ℕ) = [1, 2, 3] ∧
    (embed [1, 2, 3] = embed [1, 2, 3] ∧ (embed [1, 2, 3]).length = 384) :=
  ⟨rfl, embed_deterministic [1, 2, 3] [1, 2, 3] rfl⟩

/-! ### Confusion Detector (section 4.6) -/

/-- Modelled from the spec: the Confusion Detector backend is not among
the inspected sources.  A confusion pattern belongs to a user and a
concept, carries a normalized pattern type, a trigger count and a
last-triggered timestamp. -/
structure CPattern where
  user : ℕ
  concept : ℕ
  ptype : ℕ
  count : ℕ
  ts : ℕ
deriving DecidableEq

/-- Key equality on (user, concept, pattern type). -/
def keyMatch (u c p : ℕ) (x : CPattern) : Bool :=
  decide (x.user = u) && decide (x.concept = c) && decide (x.ptype = p)

/-- Increment the trigger count and refresh the timestamp of every
pattern matching the key, leave the others untouched. -/
def bumpWith (u c p ts : ℕ) (x : CPattern) : CPattern :=
  if keyMatch u c p x then { x with count := x.count + 1, ts := ts } else x

/-- Modelled from the spec: recording a wrong answer upserts the
ConfusionPattern of the classified (user, concept, type) key; an existing
pattern gets its trigger count incremented and timestamp updated,
otherwise a fresh pattern with count 1 is appended. -/
def recordWrongAnswer (db : List CPattern) (u c p ts : ℕ) : List CPattern :=
  if db.any (keyMatch u c p) then db.map (bumpWith u c p ts)
  else db ++ [⟨u, c, p, 1, ts⟩]

/-- Number of stored patterns for a key. -/
def numPatterns (db : List CPattern) (u c p : ℕ) : ℕ :=
  (db.filter (keyMatch u c p)).length

/-- Total trigger count stored for a key. -/
def trigSum (db : List CPattern) (u c p : ℕ) : ℕ :=
  ((db.filter (keyMatch u c p)).map CPattern.count).sum

theorem keyMatch_bumpWith (u2 c2 p2 ts2 u c p : ℕ) (x : CPattern) :
    keyMatch u c p (bumpWith u2 c2 p2 ts2 x) = keyMatch u c p x := by
  unfold bumpWith
  by_cases h : keyMatch u2 c2 p2 x
  · rw [if_pos h]
    rfl
  · rw [if_neg h]

theorem filter_map_bump (u2 c2 p2 ts2 u c p : ℕ) (db : List CPattern) :
    (db.map (bumpWith u2 c2 p2 ts2)).filter (keyMatch u c p)
      = (db.filter (keyMatch u c p)).map (bumpWith u2 c2 p2 ts2) := by
  induction db with
  | nil => rfl
  | cons x t ih =>
      simp only [List.map_cons, List.filter_cons, keyMatch_bumpWith]
      by_cases h : keyMatch u c p x
      · simp [h, ih]
      · simp [h, ih]

theorem count_bumpWith_ge (u2 c2 p2 ts2 : ℕ) (x : CPattern) :
    x.count ≤ (bumpWith u2 c2 p2 ts2 x).count := by
  unfold bumpWith
  by_cases h : keyMatch u2 c2 p2 x
  · rw [if_pos h]
    exact Nat.le_succ _
  · rw [if_neg h]

theorem sum_count_bump_of_match (u c p ts : ℕ) (l : List CPattern)
    (h : ∀ x ∈ l, keyMatch u c p x = true) :
    ((l.map (bumpWith u c p ts)).map CPattern.count).sum
      = (l.map CPattern.count).sum + l.length := by
  induction l with
  | nil => rfl
  | cons x t ih =>
      have hx : keyMatch u c p x = true := h x (List.mem_cons_self x t)
      have ht : ∀ y ∈ t, keyMatch u c p y = true :=
        fun y hy => h y (List.mem_cons_of_mem x hy)
      simp only [List.map_cons, List.sum_cons, List.length_cons, ih ht]
      simp [bumpWith, hx]
      omega

theorem sum_count_map_bump_ge (u2 c2 p2 ts2 : ℕ) (l : List CPattern) :
    (l.map CPattern.count).sum
      ≤ ((l.map (bumpWith u2 c2 p2 ts2)).map CPattern.count).sum := by
  rw [List.map_map]
  exact List.sum_le_sum fun x _ => count_bumpWith_ge u2 c2 p2 ts2 x

theorem numPatterns_eq_zero_iff (db : List CPattern) (u c p : ℕ) :
    numPatterns db u c p = 0 ↔ db.any (keyMatch u c p) = false := by
  unfold numPatterns
  rw [List.length_eq_zero, List.filter_eq_nil_iff, List.any_eq_false]

/-- C8: recording a wrong answer upserts the ConfusionPattern of its key:
with an existing pattern the store keeps its size and the trigger count
of the key strictly grows; without one the new pattern is appended with
count 1.  Two identical wrong answers starting from a store without the
key leave exactly one pattern of that key with trigger count 2, and no
record operation ever removes a pattern or decreases a trigger count. -/
theorem confusion_pattern_upsert (db : List CPattern)
    (u c p ts ts2 u2 c2 p2 : ℕ) :
    (db.any (keyMatch u c p) = true →
        (recordWrongAnswer db u c p ts).length = db.length ∧
        trigSum (recordWrongAnswer db u c p ts) u c p
          = trigSum db u c p + numPatterns db u c p ∧
        trigSum db u c p < trigSum (recordWrongAnswer db u c p ts) u c p) ∧
    (db.any (keyMatch u c p) = false →
        recordWrongAnswer db u c p ts = db ++ [⟨u, c, p, 1, ts⟩]) ∧
    (numPatterns db u c p = 0 →
        numPatterns (recordWrongAnswer (recordWrongAnswer db u c p ts) u c p ts2) u c p = 1 ∧
        trigSum (recordWrongAnswer (recordWrongAnswer db u c p ts) u c p ts2) u c p = 2) ∧
    db.length ≤ (recordWrongAnswer db u2 c2 p2 ts2).length ∧
    numPatterns db u c p ≤ numPatterns (recordWrongAnswer db u2 c2 p2 ts2) u c p ∧
    trigSum db u c p ≤ trigSum (recordWrongAnswer db u2 c2 p2 ts2) u c p := by
  have hmatch_self : keyMatch u c p ⟨u, c, p, 1, ts⟩ = true := by
    simp [keyMatch]
  have hfilter_all : ∀ x ∈ db.filter (keyMatch u c p), keyMatch u c p x = true :=
    fun x hx => (List.mem_filter.1 hx).2
  refine ⟨?_, ?_, ?_, ?_, ?_, ?_⟩
  · intro hany
    have hrec : recordWrongAnswer db u c p ts = db.map (bumpWith u c p ts) := by
      unfold recordWrongAnswer
      rw [if_pos hany]
    have hpos : 0 < numPatterns db u c p := by
      rcases Nat.eq_zero_or_pos (numPatterns db u c p) with h0 | h0
      · rw [(numPatterns_eq_zero_iff db u c p).1 h0] at hany
        cases hany
      · exact h0
    have htrig : trigSum (db.map (bumpWith u c p ts)) u c p
        = trigSum db u c p + numPatterns db u c p := by
      unfold trigSum numPatterns
      rw [filter_map_bump]
      exact sum_count_bump_of_match u c p ts _ hfilter_all
    refine ⟨by rw [hrec, List.length_map], by rw [hrec]; exact htrig, ?_⟩
    rw [hrec, htrig]
    omega
  · intro hany
    unfold recordWrongAnswer
    rw [if_neg (by rw [hany]; exact Bool.false_ne_true)]
  · intro h0
    have hany : db.any (keyMatch u c p) = false := (numPatterns_eq_zero_iff db u c p).1 h0
    have hnil : db.filter (keyMatch u c p) = [] := by
      unfold numPatterns at h0
      exact List.length_eq_zero.1 h0
    have hrec1 : recordWrongAnswer db u c p ts = db ++ [⟨u, c, p, 1, ts⟩] := by
      unfold recordWrongAnswer
      rw [if_neg (by rw [hany]; exact Bool.false_ne_true)]
    have hany2 : (db ++ [(⟨u, c, p, 1, ts⟩ : CPattern)]).any (keyMatch u c p) = true := by
      rw [List.any_append]
      simp [hmatch_self]
    have hfil2 : (db ++ [(⟨u, c, p, 1, ts⟩ : CPattern)]).filter (keyMatch u c p)
        = [(⟨u, c, p, 1, ts⟩ : CPattern)] := by
      rw [List.filter_append, hnil]
      simp [hmatch_self]
    have hrec2 : recordWrongAnswer (db ++ [(⟨u, c, p, 1, ts⟩ : CPattern)]) u c p ts2
        = (db ++ [(⟨u, c, p, 1, ts⟩ : CPattern)]).map (bumpWith u c p ts2) := by
      unfold recordWrongAnswer
      rw [if_pos hany2]
    constructor
    · rw [hrec1, hrec2]
      unfold numPatterns
      rw [filter_map_bump, hfil2]
      rfl
    · rw [hrec1, hrec2]
      unfold trigSum
      rw [filter_map_bump, hfil2]
      simp [bumpWith, hmatch_self]
  · unfold recordWrongAnswer
    by_cases h : db.any (keyMatch u2 c2 p2)
    · rw [if_pos h, List.length_map]
    · rw [if_neg h, List.length_append]
      omega
  · unfold recordWrongAnswer
    by_cases h : db.any (keyMatch u2 c2 p2)
    · rw [if_pos h]
      unfold numPatterns
      rw [filter_map_bump, List.length_map]
    · rw [if_neg h]
      unfold numPatterns
      rw [List.filter_append, List.length_append]
      omega
  · unfold recordWrongAnswer
    by_cases h : db.any (keyMatch u2 c2 p2)
    · rw [if_pos h]
      unfold trigSum
      rw [filter_map_bump]
      exact sum_count_map_bump_ge u2 c2 p2 ts2 _
    · rw [if_neg h]
      unfold trigSum
      rw [List.filter_append, List.map_append, List.sum_append]
      omega

/-- Witness for C8 on the empty pattern store and key (1, 2, 3). -/
theorem confusion_pattern_upsert_witness :
    (([] : List CPattern).any (keyMatch 1 2 3) = true →
        (recordWrongAnswer [] 1 2 3 10).length = ([] : List CPattern).length ∧
        trigSum (recordWrongAnswer [] 1 2 3 10) 1 2 3
          = trigSum [] 1 2 3 + numPatterns [] 1 2 3 ∧
        trigSum [] 1 2 3 < trigSum (recordWrongAnswer [] 1 2 3 10) 1 2 3) ∧
    (([] : List CPattern).any (keyMatch 1 2 3) = false →
        recordWrongAnswer [] 1 2 3 10 = [] ++ [⟨1, 2, 3, 1, 10⟩]) ∧
    (numPatterns [] 1 2 3 = 0 →
        numPatterns (recordWrongAnswer (recordWrongAnswer [] 1 2 3 10) 1 2 3 11) 1 2 3 = 1 ∧
        trigSum (recordWrongAnswer (recordWrongAnswer [] 1 2 3 10) 1 2 3 11) 1 2 3 = 2) ∧
    ([] : List CPattern).length ≤ (recordWrongAnswer [] 4 5 6 11).length ∧
    numPatterns [] 1 2 3 ≤ numPatterns (recordWrongAnswer [] 4 5 6 11) 1 2 3 ∧
    trigSum [] 1 2 3 ≤ trigSum (recordWrongAnswer [] 4 5 6 11) 1 2 3 :=
  confusion_pattern_upsert [] 1 2 3 10 11 4 5 6

/-! ### Shared API client (frontend api module) -/

/-- Configuration of the shared axios client: every page issues its
requests through this one instance. -/
structure ApiClientConfig where
  baseURL : String
  timeoutMs : ℕ
deriving DecidableEq

/-- The client as created in the frontend api module: base URL of the
backend and an explicit 30000 millisecond timeout. -/
def api : ApiClientConfig :=
  { baseURL := "http://localhost:8000/api", timeoutMs := 30000 }

/-- Outcome of one request. -/
inductive ApiOutcome where
  | success (status : ℕ)
  | timedOut
deriving DecidableEq

/-- A request against a client configuration and a backend latency: when
the latency reaches the configured timeout the request aborts with a
timeout outcome instead of waiting further. -/
def runRequest (cfg : ApiClientConfig) (latencyMs status : ℕ) : ApiOutcome :=
  if cfg.timeoutMs ≤ latencyMs then ApiOutcome.timedOut
  else ApiOutcome.success status

/-- From the interactive pages (chat, quiz, cram plan): a failed request
is caught and surfaced as an error toast, never left pending. -/
def showsErrorToast : ApiOutcome → Bool
  | ApiOutcome.timedOut => true
  | ApiOutcome.success _ => false

/-- C9: the shared client is created with a finite 30000 ms timeout, so
a request whose backend latency reaches the timeout resolves to a
timeout outcome that the interactive pages surface as a user-visible
error, and a faster response succeeds normally. -/
theorem api_timeout_bounded :
    api.timeoutMs = 30000 ∧ 0 < api.timeoutMs ∧
    (∀ latency status : ℕ, api.timeoutMs ≤ latency →
        runRequest api latency status = ApiOutcome.timedOut ∧
        showsErrorToast (runRequest api latency status) = true) ∧
    (∀ latency status : ℕ, latency < api.timeoutMs →
        runRequest api latency status = ApiOutcome.success status) := by
  refine ⟨rfl, by norm_num [api], ?_, ?_⟩
  · intro latency status h
    have : runRequest api latency status = ApiOutcome.timedOut := by
      unfold runRequest
      rw [if_pos h]
    exact ⟨this, by rw [this]; rfl⟩
  · intro latency status h
    unfold runRequest
    rw [if_neg (by omega)]

/-- Witness for C9 at latency exactly 30000 ms and at 100 ms. -/
theorem api_timeout_bounded_witness :
    (api.timeoutMs ≤ 30000 →
        runRequest api 30000 200 = ApiOutcome.timedOut ∧
        showsErrorToast (runRequest api 30000 200) = true) ∧
    (100 < api.timeoutMs →
        runRequest api 100 200 = ApiOutcome.success 200) ∧
    api.timeoutMs = 30000 :=
  ⟨fun h => (api_timeout_bounded.2.2.1 30000 200 h),
   fun h => (api_timeout_bounded.2.2.2 100 200 h),
   api_timeout_bounded.1⟩

/-! ### Quiz page scoring (Quiz.jsx and the richer quiz page) -/

/-- JavaScript Math.round modelled over exact rationals: floor of
x + 1/2. -/
def jsRound (q : ℚ) : ℤ := ⌊q + 1 / 2⌋

/-- From the quiz results screen: the displayed final score is
Math.round((correct / total_questions) * 100). -/
def quizScore (c total : ℕ) : ℤ := jsRound ((c : ℚ) / (total : ℚ) * 100)

/-- Local state of one quiz attempt on the richer quiz page: the running
correct-answer counter and the locally recorded graded answers. -/
structure QuizAttempt where
  correctAnswers : ℕ
  answers : List Bool
deriving DecidableEq

/-- From submitAnswer on the richer quiz page: each grading response is
appended to the local answer log, and the correct-answer counter is
incremented exactly when the grading endpoint reports is_correct. -/
def recordAnswer (s : QuizAttempt) (isCorrect : Bool) : QuizAttempt :=
  { correctAnswers := if isCorrect then s.correctAnswers + 1 else s.correctAnswers
    answers := s.answers ++ [isCorrect] }

/-- Run a whole attempt from the initial state. -/
def runQuiz (results : List Bool) : QuizAttempt :=
  results.foldl recordAnswer ⟨0, []⟩

/-- From the results screen of the richer quiz page: the displayed
correct count is the counter, falling back (JavaScript or, where 0 is
falsy) to the count of locally recorded correct answers. -/
def effectiveCorrect (serverCount : ℕ) (localAnswers : List Bool) : ℕ :=
  if serverCount = 0 then (localAnswers.filter id).length else serverCount

theorem runQuiz_foldl (results : List Bool) :
    ∀ s : QuizAttempt,
      (results.foldl recordAnswer s).correctAnswers
          = s.correctAnswers + (results.filter id).length ∧
      (results.foldl recordAnswer s).answers = s.answers ++ results := by
  induction results with
  | nil => intro s; simp
  | cons b t ih =>
      intro s
      have step : (b :: t).foldl recordAnswer s = t.foldl recordAnswer (recordAnswer s b) := rfl
      rw [step]
      obtain ⟨ih1, ih2⟩ := ih (recordAnswer s b)
      constructor
      · rw [ih1]
        cases b <;> simp [recordAnswer, List.filter_cons] <;> omega
      · rw [ih2]
        simp [recordAnswer]

/-- C10: the correct counter is incremented exactly on an is_correct
grading result, after a full attempt it equals the number of correct
local answers (so the fallback display agrees with it), and the final
displayed score round(100 * c / total) lies between 0 and 100 whenever
0 < total and c is at most total. -/
theorem quiz_score_correct (results : List Bool) (c total : ℕ)
    (htotal : 0 < total) (hc : c ≤ total) :
    (∀ s : QuizAttempt, ∀ b : Bool,
        (recordAnswer s b).correctAnswers
          = s.correctAnswers + (if b then 1 else 0)) ∧
    (runQuiz results).correctAnswers = (results.filter id).length ∧
    (runQuiz results).answers = results ∧
    effectiveCorrect (runQuiz results).correctAnswers (runQuiz results).answers
      = (results.filter id).length ∧
    quizScore c total = jsRound ((c : ℚ) / (total : ℚ) * 100) ∧
    0 ≤ quizScore c total ∧ quizScore c total ≤ 100 := by
  have hrun := runQuiz_foldl results ⟨0, []⟩
  have hcount : (runQuiz results).correctAnswers = (results.filter id).length := by
    have := hrun.1
    simpa [runQuiz] using this
  have hans : (runQuiz results).answers = results := by
    have := hrun.2
    simpa [runQuiz] using this
  have hx0 : (0 : ℚ) ≤ (c : ℚ) / (total : ℚ) * 100 := by positivity
  have hx1 : (c : ℚ) / (total : ℚ) * 100 ≤ 100 := by
    have htq : (0 : ℚ) < (total : ℚ) := by exact_mod_cast htotal
    have hcq : (c : ℚ) ≤ (total : ℚ) := by exact_mod_cast hc
    have : (c : ℚ) / (total : ℚ) ≤ 1 := (div_le_one htq).2 hcq
    nlinarith
  refine ⟨?_, hcount, hans, ?_, rfl, ?_, ?_⟩
  · intro s b
    cases b <;> simp [recordAnswer]
  · rw [hcount, hans]
    unfold effectiveCorrect
    by_cases h : (results.filter id).length = 0
    · rw [if_pos h]
    · rw [if_neg h]
  · unfold quizScore jsRound
    have : (0 : ℤ) ≤ ⌊(c : ℚ) / (total : ℚ) * 100 + 1 / 2⌋ := by
      apply Int.le_floor.2
      push_cast
      linarith
    exact this
  · unfold quizScore jsRound
    have : ⌊(c : ℚ) / (total : ℚ) * 100 + 1 / 2⌋ < 101 := by
      apply Int.floor_lt.2
      push_cast
      linarith
    omega

/-- Witness for C10 on a three-question attempt with two correct
answers. -/
theorem quiz_score_correct_witness :
    (0 < 3 ∧ 2 ≤ 3) ∧
    ((∀ s : QuizAttempt, ∀ b : Bool,
        (recordAnswer s b).correctAnswers
          = s.correctAnswers + (if b then 1 else 0)) ∧
     (runQuiz [true, false, true]).correctAnswers
        = ([true, false, true].filter id).length ∧
     (runQuiz [true, false, true]).answers = [true, false, true] ∧
     effectiveCorrect (runQuiz [true, false, true]).correctAnswers
        (runQuiz [true, false, true]).answers
        = ([true, false, true].filter id).length ∧
     quizScore 2 3 = jsRound ((2 : ℚ) / (3 : ℚ) * 100) ∧
     0 ≤ quizScore 2 3 ∧ quizScore 2 3 ≤ 100) :=
  ⟨⟨by norm_num, by norm_num⟩,
   quiz_score_correct [true, false, true] 2 3 (by norm_num) (by norm_num)⟩

end StudyBuddy
